import Mathlib

/-!
Verification of the incremental submission ingestion and scoring engine of
the AtC-Rank repository (src/main.py, src/db.py, src/scoring.py,
src/utils.py).  The engine is modelled per user as a pure state machine:
the persisted per-user state (fetch watermark, streak, last-acceptance map,
weekly aggregates, submission log) is a `Store`; the read-only inputs
(stored rating, problems table) are an `Env`; a fetched remote row is a
`Result`.  Python floats are idealised as exact rationals or reals; Python
round, which rounds half to even, is modelled by `pyRound` and `pyRoundR`.
Timezone conversion to JST is a fixed +9h offset; dates are day numbers
since the Unix epoch; instants are epoch seconds as integers.
-/

/-- Association-list lookup, modelling a keyed select from the SQLite
store (db.py). -/
def lookupA {α β : Type} [DecidableEq α] : List (α × β) → α → Option β
  | [], _ => none
  | (k, v) :: t, a => if k = a then some v else lookupA t a

/-- Association-list upsert with overwrite, modelling the
`on conflict do update set` pattern of db.py (e.g. `upsert_last_ac`). -/
def upsertSet {α β : Type} [DecidableEq α] : List (α × β) → α → β → List (α × β)
  | [], a, b => [(a, b)]
  | (k, v) :: t, a, b => if k = a then (k, b) :: t else (k, v) :: upsertSet t a b

/-- Association-list upsert with additive merge, modelling
`db.add_weekly_score` (`score = weekly_scores.score + excluded.score`). -/
def upsertAdd : List (Int × Int) → Int → Int → List (Int × Int)
  | [], a, b => [(a, b)]
  | (k, v) :: t, a, b => if k = a then (k, v + b) :: t else (k, v) :: upsertAdd t a b

/-- Local-timezone (JST, UTC+9) calendar date of an epoch-second instant,
as a day number since 1970-01-01; models `to_jst(dt).date()` in
src/utils.py / src/main.py. -/
def to_jst_date (epoch : Int) : Int :=
  Int.fdiv (epoch + 32400) 86400

/-- Week bucket anchor of an instant: the most recent Monday 07:00 JST,
returned as an epoch second; models `week_start_jst` in src/utils.py.
Day 0 (1970-01-01) is a Thursday, so the Monday-based weekday of day `d`
is `(d + 3) mod 7`. -/
def week_start_jst (epoch : Int) : Int :=
  let day := to_jst_date epoch
  let wd := (day + 3).emod 7
  let monday := (day - wd) * 86400 + 7 * 3600 - 32400
  if epoch < monday then monday - 7 * 86400 else monday

/-- Python `round` (round half to even) on an exact rational. -/
def pyRound (x : Rat) : Int :=
  let n : Int := ⌊x⌋
  if x - n < 1 / 2 then n
  else if 1 / 2 < x - n then n + 1
  else if Even n then n else n + 1

/-- Python `round` (round half to even) on a real number, used for the
exp-based formulas of src/scoring.py and src/utils.py. -/
noncomputable def pyRoundR (x : Real) : Int :=
  let n : Int := ⌊x⌋
  if x - n < 1 / 2 then n
  else if 1 / 2 < x - n then n + 1
  else if Even n then n else n + 1

/-- `base_score` from src/scoring.py:
`round(500 / (1 + exp((rating - difficulty) / 400)))`. -/
noncomputable def base_score (rating difficulty : Int) : Int :=
  pyRoundR (500 / (1 + Real.exp (((rating : Real) - (difficulty : Real)) / 400)))

/-- `streak_multiplier` from src/scoring.py: `1.0 + min(streak, 7) * 0.05`,
with the float 0.05 idealised as the exact rational 5/100. -/
def streak_multiplier (streak : Int) : Rat :=
  1 + ((min streak 7 : Int) : Rat) * (5 / 100)

/-- `display_difficulty` from src/utils.py: the difficulty normalizer.
For raw values below 400 it returns `round(400 / exp(1 - raw / 400))`,
otherwise `round(raw)`. -/
noncomputable def display_difficulty (difficulty_raw : Real) : Int :=
  if difficulty_raw < 400 then pyRoundR (400 / Real.exp (1 - difficulty_raw / 400))
  else pyRoundR difficulty_raw

/-- Modelled from the code's float semantics: CPython's `math.exp` raises
OverflowError when the result exceeds the largest double, which happens
exactly for arguments above log(DBL_MAX), approximately 709.782712893384.
The escaping OverflowError is modelled as `none`. -/
noncomputable def math_exp (x : Real) : Option Real :=
  if x ≤ 709.782712893384 then some (Real.exp x) else none

/-- `display_difficulty` from src/utils.py with the overflow behaviour of
`math.exp` on the `raw < 400` branch made explicit: `none` models the
OverflowError propagating out of the function. -/
noncomputable def display_difficulty_checked (difficulty_raw : Real) : Option Int :=
  if difficulty_raw < 400 then
    (math_exp (1 - difficulty_raw / 400)).map (fun e => pyRoundR (400 / e))
  else some (pyRoundR difficulty_raw)

/-- One row of the remote result list returned by
`atcoder_api.fetch_user_results`; `id` and `problem_id` are optional
because `r.get(...)` may return None. -/
structure Result where
  result : String
  epoch_second : Int
  id : Option Int
  problem_id : Option String
deriving DecidableEq

/-- One appended row of the `submissions` table (db.insert_submission). -/
structure Submission where
  problem_id : String
  submitted_at : Int
  score_base : Int
  streak_mult : Rat
  score_final : Int
deriving DecidableEq

/-- The persisted per-user state owned by the ingestion engine:
fetch watermark (`user_fetch_state`), streak row (`streaks`),
per-problem last credited acceptance (`user_problem_last_ac`),
weekly aggregates (`weekly_scores`, keyed by week-start epoch) and the
append-only submission log (`submissions`, most recent first). -/
structure Store where
  last_checked_epoch : Int
  last_submission_id : Option Int
  current_streak : Int
  last_ac_date : Option Int
  lastAc : List (String × Int)
  weekly : List (Int × Int)
  submissions : List Submission
deriving DecidableEq

/-- Read-only inputs of one user's poll cycle: the stored rating
(`db.get_rating`, defaulting to 0) and the problems table restricted to
its difficulty column (`db.get_problem`): `none` means the problem row is
absent, `some none` a row with NULL difficulty. -/
structure Env where
  rating : Int
  problems : List (String × Option Int)
deriving DecidableEq

/-- Python truthiness of the optional problem id in `handle_ac`
(`if not problem_id: return False`): None and the empty string are falsy. -/
def truthyProblem (r : Result) : Option String :=
  r.problem_id.elim none (fun p => if p = "" then none else some p)

/-- Effective difficulty used by `handle_ac`:
`problem.get("difficulty") if problem else None`. -/
def effectiveDifficulty (env : Env) (p : String) : Option Int :=
  (lookupA env.problems p).elim none (fun d => d)

/-- Base score selection in `handle_ac`: flat 150 when the difficulty is
unknown, otherwise `base_score(rating, difficulty)`. -/
noncomputable def scoreBaseOf (env : Env) (p : String) : Int :=
  (effectiveDifficulty env p).elim 150 (fun d => base_score env.rating d)

/-- Streak transition of `handle_ac`: unchanged on a same-day credit,
incremented on a next-day credit, else reset to 1. -/
def newStreak (s : Store) (today : Int) : Int :=
  if s.last_ac_date = some today then s.current_streak
  else if s.last_ac_date = some (today - 1) then s.current_streak + 1
  else 1

/-- db.update_streak: overwrite the streak row. -/
def update_streak (s : Store) (ns today : Int) : Store :=
  { s with current_streak := ns, last_ac_date := some today }

/-- db.insert_submission: append to the submission log. -/
def insert_submission (s : Store) (rec : Submission) : Store :=
  { s with submissions := rec :: s.submissions }

/-- db.add_weekly_score: additive upsert into the week bucket. -/
def add_weekly_score (s : Store) (week delta : Int) : Store :=
  { s with weekly := upsertAdd s.weekly week delta }

/-- db.upsert_last_ac: overwrite the per-problem last acceptance time. -/
def upsert_last_ac (s : Store) (p : String) (t : Int) : Store :=
  { s with lastAc := upsertSet s.lastAc p t }

/-- The four persistence writes of one credited event, in the order
`handle_ac` performs them: update_streak, insert_submission,
add_weekly_score, upsert_last_ac.  All written values are computed from
the pre-state, as in the source. -/
noncomputable def creditSeq (env : Env) (s : Store) (r : Result) (p : String) :
    List (Store → Store) :=
  let today := to_jst_date r.epoch_second
  let ns := newStreak s today
  let sb := scoreBaseOf env p
  let mult := streak_multiplier ns
  let sf := pyRound ((sb : Rat) * mult)
  let week := week_start_jst r.epoch_second
  [fun st => update_streak st ns today,
   fun st => insert_submission st ⟨p, r.epoch_second, sb, mult, sf⟩,
   fun st => add_weekly_score st week sf,
   fun st => upsert_last_ac st p r.epoch_second]

/-- The credited-event persistence step: all four writes applied in
order. -/
noncomputable def credit (env : Env) (s : Store) (r : Result) (p : String) : Store :=
  (creditSeq env s r p).foldl (fun st f => f st) s

/-- Partial persistence: only the first `k` of the four writes ran before
a failure (each db call in src/db.py commits separately, so a failure
between calls durably retains exactly the prefix). -/
noncomputable def creditUpTo (k : Nat) (env : Env) (s : Store) (r : Result) (p : String) :
    Store :=
  ((creditSeq env s r p).take k).foldl (fun st f => f st) s

/-- The credit gate of `handle_ac`: the problem id is truthy and no
acceptance of the same problem was credited within the last 7 days
(`if last_ac_at and submitted_at - last_ac_at < timedelta(days=7)`). -/
def creditsB (s : Store) (r : Result) : Bool :=
  (truthyProblem r).elim false (fun p =>
    (lookupA s.lastAc p).elim true (fun t =>
      if r.epoch_second - t < 7 * 86400 then false else true))

/-- `handle_ac` from src/main.py, as a store transformer: returns the
store unchanged when the problem id is falsy or the cooldown check
rejects the entry, otherwise performs the credited-event writes. -/
noncomputable def handle_ac (env : Env) (s : Store) (r : Result) : Store :=
  (truthyProblem r).elim s (fun p =>
    (lookupA s.lastAc p).elim (credit env s r p) (fun t =>
      if r.epoch_second - t < 7 * 86400 then s else credit env s r p))

/-- The filter of `poll_user` (src/main.py): keep AC results at or after
the lookback window start, dropping only entries at exactly the watermark
epoch whose id does not strictly exceed a set `last_submission_id`
(Python truthiness: a missing or zero id never exceeds). -/
def keepB (lastEpoch : Int) (lastId : Option Int) (windowStart : Int) (r : Result) : Bool :=
  if r.result = "AC" then
    if r.epoch_second < windowStart then false
    else if lastEpoch < r.epoch_second then true
    else if r.epoch_second = lastEpoch then
      lastId.elim true (fun v =>
        r.id.elim false (fun i => if i = 0 then false else decide (v < i)))
    else true
  else false

/-- Sort key of `poll_user`: `(epoch_second, id or 0)`. -/
def rkey (r : Result) : Int × Int :=
  (r.epoch_second, r.id.getD 0)

/-- Key order used for the stable ascending sort. -/
def rkeyLe (a b : Int × Int) : Bool :=
  if a.1 < b.1 then true else if a.1 = b.1 then decide (a.2 ≤ b.2) else false

/-- Stable insertion of a result into an already sorted list: an element
arriving earlier is placed before elements with an equal key. -/
def insR (r : Result) : List Result → List Result
  | [] => [r]
  | x :: xs => if rkeyLe (rkey r) (rkey x) then r :: x :: xs else x :: insR r xs

/-- Stable ascending sort by `(epoch_second, id or 0)`, modelling
`filtered.sort(key=...)`. -/
def sortResults : List Result → List Result
  | [] => []
  | r :: rs => insR r (sortResults rs)

/-- One step of the watermark advancement loop of `poll_user`: track the
maximum epoch seen and the maximum id at that epoch. -/
def wmStep (a : Int × Option Int) (r : Result) : Int × Option Int :=
  if a.1 < r.epoch_second then (r.epoch_second, r.id)
  else if r.epoch_second = a.1 then
    r.id.elim a (fun rid => (a.1, some (max (a.2.getD 0) rid)))
  else a

/-- The filter loop of `poll_user`: the kept entries of one fetched list
relative to the store's watermark, with the 24h lookback window
`window_start = max(0, last_checked_epoch - 86400)`. -/
def pollFilter (s : Store) (results : List Result) : List Result :=
  results.filter
    (keepB s.last_checked_epoch s.last_submission_id (max 0 (s.last_checked_epoch - 86400)))

/-- The body of `poll_user` after a successful fetch: filter to new AC
entries relative to the watermark and the 24h lookback window, sort,
process each entry through `handle_ac`, and advance the watermark once
per cycle (skipping the fetch-state write when nothing was kept). -/
noncomputable def poll_results (env : Env) (s : Store) (results : List Result) : Store :=
  let filtered := pollFilter s results
  if filtered = [] then s
  else
    let sorted := sortResults filtered
    let s1 := sorted.foldl (handle_ac env) s
    let wm := sorted.foldl wmStep (s.last_checked_epoch, s.last_submission_id)
    { s1 with last_checked_epoch := wm.1, last_submission_id := wm.2 }

/-- `poll_user` from src/main.py: a failed fetch (`none`) aborts the cycle
with no state change; otherwise the fetched list is processed. -/
noncomputable def poll_user (env : Env) (fetched : Option (List Result)) (s : Store) : Store :=
  match fetched with
  | none => s
  | some results => poll_results env s results

/-- Modelled from the spec: the newness predicate of the claim (spec §3):
a result is new iff its epoch exceeds `last_checked_epoch`, or its epoch
equals `last_checked_epoch` and its id exceeds `last_submission_id` or
`last_submission_id` is unset. -/
def spec_is_new (lastEpoch : Int) (lastId : Option Int) (r : Result) : Bool :=
  if lastEpoch < r.epoch_second then true
  else if r.epoch_second = lastEpoch then
    lastId.elim true (fun v => r.id.elim false (fun i => decide (v < i)))
  else false

/-! ## Concrete scenario data used by the per-claim instance theorems -/

/-- Environment with no stored rating and an empty problems table: every
credit takes the flat-150 base-score path. -/
def envFlat : Env := ⟨0, []⟩

/-- C2 counterexample store: watermark (1000, id 50), no history. -/
def s0C2 : Store := ⟨1000, some 50, 0, none, [], [], []⟩

/-- C2 counterexample entry at exactly the watermark epoch with id 40,
not above the stored last_submission_id 50. -/
def rA : Result := ⟨"AC", 1000, some 40, some "p"⟩

/-- C2 counterexample entry strictly after the watermark. -/
def rB : Result := ⟨"AC", 1100, some 99, some "q"⟩

/-- Fresh store used by the C2 witness. -/
def s0Wit : Store := ⟨0, none, 0, none, [], [], []⟩

/-- Single new AC entry used by the C2 witness. -/
def rWit : Result := ⟨"AC", 5, some 1, some "p"⟩

/-- Store with an ongoing streak of 3 whose last credited JST date is day
20454, used by the C7 witness. -/
def sSameDay : Store := ⟨0, none, 3, some 20454, [], [], []⟩

/-- Acceptance whose JST date is day 20454 (same day), used by the C7
witness. -/
def rSameDay : Result := ⟨"AC", 20454 * 86400 - 32400, some 1, some "p"⟩

/-- Store whose last credited JST date is day 100, used by the C10
witness. -/
def sReset : Store := ⟨0, none, 5, some 100, [], [], []⟩

/-- Out-of-order acceptance whose JST date is day 50, strictly earlier
than the stored date, used by the C10 witness. -/
def rReset : Result := ⟨"AC", 50 * 86400 - 32400, some 1, some "p"⟩

/-- First acceptance of problem p, used by the C6 witness. -/
def rC6a : Result := ⟨"AC", 1000, some 1, some "p"⟩

/-- Repeat acceptance of problem p 1000 seconds later, used by the C6
witness. -/
def rC6b : Result := ⟨"AC", 2000, some 2, some "p"⟩

/-- C1 environment: stored rating 1000 and one problem of known
difficulty 1000. -/
def envC1 : Env := ⟨1000, [("p1", some 1000)]⟩

/-- C1 store: watermark at epoch 1000, no prior streak or history. -/
def sC1 : Store := ⟨1000, none, 0, none, [], [], []⟩

/-- C1 fetched entry: one new AC at epoch 1500 on problem p1. -/
def rC1 : Result := ⟨"AC", 1500, some 1, some "p1"⟩

/-! ## Basic unfolding lemmas -/

theorem credit_fields (env : Env) (s : Store) (r : Result) (p : String) :
    credit env s r p =
      { s with
        current_streak := newStreak s (to_jst_date r.epoch_second),
        last_ac_date := some (to_jst_date r.epoch_second),
        lastAc := upsertSet s.lastAc p r.epoch_second,
        weekly := upsertAdd s.weekly (week_start_jst r.epoch_second)
          (pyRound ((scoreBaseOf env p : Rat) *
            streak_multiplier (newStreak s (to_jst_date r.epoch_second)))),
        submissions :=
          ⟨p, r.epoch_second, scoreBaseOf env p,
            streak_multiplier (newStreak s (to_jst_date r.epoch_second)),
            pyRound ((scoreBaseOf env p : Rat) *
              streak_multiplier (newStreak s (to_jst_date r.epoch_second)))⟩ ::
            s.submissions } := rfl

theorem handle_ac_of_falsy (env : Env) (s : Store) (r : Result)
    (h : truthyProblem r = none) : handle_ac env s r = s := by
  simp only [handle_ac, h, Option.elim_none]

theorem handle_ac_of_skip (env : Env) (s : Store) (r : Result) (p : String) (t : Int)
    (hp : truthyProblem r = some p) (ht : lookupA s.lastAc p = some t)
    (hlt : r.epoch_second - t < 7 * 86400) : handle_ac env s r = s := by
  simp only [handle_ac, hp, ht, Option.elim_some, if_pos hlt]

theorem handle_ac_of_credit (env : Env) (s : Store) (r : Result) (p : String)
    (hp : truthyProblem r = some p) (hc : creditsB s r = true) :
    handle_ac env s r = credit env s r p := by
  simp only [handle_ac, hp, Option.elim_some]
  simp only [creditsB, hp, Option.elim_some] at hc
  cases hl : lookupA s.lastAc p with
  | none => simp only [Option.elim_none]
  | some t =>
    rw [hl] at hc
    simp only [Option.elim_some] at hc ⊢
    by_cases hlt : r.epoch_second - t < 7 * 86400
    · rw [if_pos hlt] at hc
      cases hc
    · rw [if_neg hlt]

theorem handle_ac_of_not_credits (env : Env) (s : Store) (r : Result)
    (hc : creditsB s r = false) : handle_ac env s r = s := by
  simp only [handle_ac]
  simp only [creditsB] at hc
  cases hp : truthyProblem r with
  | none => simp only [Option.elim_none]
  | some p =>
    rw [hp] at hc
    simp only [Option.elim_some] at hc ⊢
    cases hl : lookupA s.lastAc p with
    | none => rw [hl] at hc; simp only [Option.elim_none] at hc; cases hc
    | some t =>
      rw [hl] at hc
      simp only [Option.elim_some] at hc ⊢
      by_cases hlt : r.epoch_second - t < 7 * 86400
      · rw [if_pos hlt]
      · rw [if_neg hlt] at hc
        cases hc

theorem creditsB_true_iff (s : Store) (r : Result) :
    creditsB s r = true ↔
      ∃ p, truthyProblem r = some p ∧
        (lookupA s.lastAc p = none ∨
          ∃ t, lookupA s.lastAc p = some t ∧ 7 * 86400 ≤ r.epoch_second - t) := by
  simp only [creditsB]
  cases hp : truthyProblem r with
  | none => simp
  | some p =>
    simp only [Option.elim_some]
    cases hl : lookupA s.lastAc p with
    | none => simp [hl]
    | some t =>
      simp only [Option.elim_some]
      by_cases hlt : r.epoch_second - t < 7 * 86400
      · rw [if_pos hlt]
        constructor
        · intro h
          exact absurd h (by decide)
        · rintro ⟨q, hq, hcase⟩
          injection hq with hq2
          subst hq2
          rcases hcase with h1 | ⟨u, hu, hle⟩
          · rw [hl] at h1
            cases h1
          · rw [hl] at hu
            injection hu with hu2
            subst hu2
            omega
      · rw [if_neg hlt]
        simp only [true_iff]
        exact ⟨p, rfl, Or.inr ⟨t, hl, by omega⟩⟩

theorem handle_ac_wm (env : Env) (s : Store) (r : Result) :
    (handle_ac env s r).last_checked_epoch = s.last_checked_epoch ∧
      (handle_ac env s r).last_submission_id = s.last_submission_id := by
  simp only [handle_ac]
  cases truthyProblem r with
  | none => exact ⟨rfl, rfl⟩
  | some p =>
    simp only [Option.elim_some]
    cases lookupA s.lastAc p with
    | none => exact ⟨rfl, rfl⟩
    | some t =>
      simp only [Option.elim_some]
      by_cases hlt : r.epoch_second - t < 7 * 86400
      · rw [if_pos hlt]; exact ⟨rfl, rfl⟩
      · rw [if_neg hlt]; exact ⟨rfl, rfl⟩

theorem foldl_handle_ac_wm (env : Env) (l : List Result) (s : Store) :
    (l.foldl (handle_ac env) s).last_checked_epoch = s.last_checked_epoch ∧
      (l.foldl (handle_ac env) s).last_submission_id = s.last_submission_id := by
  induction l generalizing s with
  | nil => exact ⟨rfl, rfl⟩
  | cons a t ih =>
    have h1 := handle_ac_wm env s a
    have h2 := ih (handle_ac env s a)
    simp only [List.foldl_cons]
    exact ⟨h2.1.trans h1.1, h2.2.trans h1.2⟩

theorem mem_insR (x r : Result) (l : List Result) :
    x ∈ insR r l ↔ x = r ∨ x ∈ l := by
  induction l with
  | nil => simp [insR]
  | cons a t ih =>
    unfold insR
    by_cases h : rkeyLe (rkey r) (rkey a) = true
    · rw [if_pos h]
      simp [or_comm, or_assoc, or_left_comm]
    · rw [if_neg h]
      simp only [List.mem_cons, ih]
      tauto

theorem mem_sortResults (x : Result) (l : List Result) :
    x ∈ sortResults l ↔ x ∈ l := by
  induction l with
  | nil => simp [sortResults]
  | cons a t ih =>
    unfold sortResults
    rw [mem_insR, ih]
    simp

theorem foldl_fixed {α β : Type} (f : α → β → α) (a : α) (l : List β)
    (h : ∀ b ∈ l, f a b = a) : l.foldl f a = a := by
  induction l with
  | nil => rfl
  | cons x t ih =>
    simp only [List.foldl_cons, h x (List.mem_cons_self x t)]
    exact ih (fun b hb => h b (List.mem_cons_of_mem x hb))

/-! ## Watermark lemmas -/

theorem wmStep_fst_mono (a : Int × Option Int) (r : Result) :
    a.1 ≤ (wmStep a r).1 := by
  unfold wmStep
  by_cases h1 : a.1 < r.epoch_second
  · simp only [if_pos h1]; omega
  · simp only [if_neg h1]
    by_cases h2 : r.epoch_second = a.1
    · simp only [if_pos h2]
      cases r.id <;> simp
    · simp only [if_neg h2]
      exact le_refl _

theorem wmStep_fst_ge (a : Int × Option Int) (r : Result) :
    r.epoch_second ≤ (wmStep a r).1 := by
  unfold wmStep
  by_cases h1 : a.1 < r.epoch_second
  · simp only [if_pos h1]
    exact le_refl _
  · simp only [if_neg h1]
    by_cases h2 : r.epoch_second = a.1
    · simp only [if_pos h2]
      cases r.id
      · simp only [Option.elim_none]; omega
      · simp only [Option.elim_some]; omega
    · simp only [if_neg h2]; omega

theorem foldl_wm_fst_mono (l : List Result) (a : Int × Option Int) :
    a.1 ≤ (l.foldl wmStep a).1 := by
  induction l generalizing a with
  | nil => exact le_refl _
  | cons r t ih =>
    simp only [List.foldl_cons]
    exact le_trans (wmStep_fst_mono a r) (ih (wmStep a r))

theorem foldl_wm_fst_ge_mem (l : List Result) (a : Int × Option Int) :
    ∀ r ∈ l, r.epoch_second ≤ (l.foldl wmStep a).1 := by
  induction l generalizing a with
  | nil => intro r hr; cases hr
  | cons x t ih =>
    intro r hr
    simp only [List.foldl_cons]
    rcases List.mem_cons.mp hr with h | h
    · subst h
      exact le_trans (wmStep_fst_ge a r) (foldl_wm_fst_mono t (wmStep a r))
    · exact ih (wmStep a x) r h

theorem wmStep_snd_growth (a : Int × Option Int) (r : Result)
    (hfst : (wmStep a r).1 = a.1) (v : Int) (hv : a.2 = some v) :
    ∃ w, (wmStep a r).2 = some w ∧ v ≤ w := by
  unfold wmStep at hfst ⊢
  by_cases h1 : a.1 < r.epoch_second
  · simp only [if_pos h1] at hfst
    omega
  · simp only [if_neg h1] at hfst ⊢
    by_cases h2 : r.epoch_second = a.1
    · simp only [if_pos h2] at hfst ⊢
      cases hid : r.id with
      | none => simp only [Option.elim_none]; exact ⟨v, hv, le_refl v⟩
      | some rid =>
        simp only [Option.elim_some]
        refine ⟨max (a.2.getD 0) rid, rfl, ?_⟩
        rw [hv]
        simp
    · simp only [if_neg h2] at hfst ⊢
      exact ⟨v, hv, le_refl v⟩

theorem foldl_wm_snd_growth (l : List Result) (a : Int × Option Int)
    (hfst : (l.foldl wmStep a).1 = a.1) :
    ∀ v, a.2 = some v → ∃ w, (l.foldl wmStep a).2 = some w ∧ v ≤ w := by
  induction l generalizing a with
  | nil => intro v hv; exact ⟨v, hv, le_refl v⟩
  | cons r t ih =>
    intro v hv
    simp only [List.foldl_cons] at hfst ⊢
    have hstep : (wmStep a r).1 = a.1 := by
      have hm1 := wmStep_fst_mono a r
      have hm2 := foldl_wm_fst_mono t (wmStep a r)
      omega
    obtain ⟨w1, hw1, hle1⟩ := wmStep_snd_growth a r hstep v hv
    have hfst2 : (t.foldl wmStep (wmStep a r)).1 = (wmStep a r).1 := by
      rw [hstep]; exact hfst
    obtain ⟨w, hw, hle⟩ := ih (wmStep a r) hfst2 w1 hw1
    exact ⟨w, hw, le_trans hle1 hle⟩

theorem wmStep_id_bound (a : Int × Option Int) (r : Result)
    (hfst : r.epoch_second = (wmStep a r).1) (rid : Int) (hrid : r.id = some rid) :
    ∃ w, (wmStep a r).2 = some w ∧ rid ≤ w := by
  unfold wmStep at hfst ⊢
  by_cases h1 : a.1 < r.epoch_second
  · simp only [if_pos h1, hrid] at hfst ⊢
    exact ⟨rid, rfl, le_refl rid⟩
  · simp only [if_neg h1] at hfst ⊢
    by_cases h2 : r.epoch_second = a.1
    · simp only [if_pos h2, hrid, Option.elim_some] at hfst ⊢
      exact ⟨max (a.2.getD 0) rid, rfl, le_max_right _ _⟩
    · simp only [if_neg h2] at hfst
      exact absurd hfst h2

theorem foldl_wm_id_bound (l : List Result) (a : Int × Option Int) :
    ∀ r ∈ l, r.epoch_second = (l.foldl wmStep a).1 → ∀ rid, r.id = some rid →
      ∃ w, (l.foldl wmStep a).2 = some w ∧ rid ≤ w := by
  induction l generalizing a with
  | nil => intro r hr; cases hr
  | cons x t ih =>
    intro r hr hfst rid hrid
    simp only [List.foldl_cons] at hfst ⊢
    rcases List.mem_cons.mp hr with h | h
    · subst h
      have hge : r.epoch_second ≤ (wmStep a r).1 := wmStep_fst_ge a r
      have hmono : (wmStep a r).1 ≤ (t.foldl wmStep (wmStep a r)).1 :=
        foldl_wm_fst_mono t (wmStep a r)
      have hstep : r.epoch_second = (wmStep a r).1 := by omega
      obtain ⟨w1, hw1, hle1⟩ := wmStep_id_bound a r hstep rid hrid
      have hfst2 : (t.foldl wmStep (wmStep a r)).1 = (wmStep a r).1 := by omega
      obtain ⟨w, hw, hle⟩ := foldl_wm_snd_growth t (wmStep a r) hfst2 w1 hw1
      exact ⟨w, hw, le_trans hle1 hle⟩
    · exact ih (wmStep a x) r h hfst rid hrid

/-! ## Last-acceptance lemmas -/

theorem lookupA_upsertSet_self {α β : Type} [DecidableEq α]
    (l : List (α × β)) (k : α) (v : β) :
    lookupA (upsertSet l k v) k = some v := by
  induction l with
  | nil => simp [upsertSet, lookupA]
  | cons a t ih =>
    obtain ⟨k0, v0⟩ := a
    unfold upsertSet
    by_cases h : k0 = k
    · rw [if_pos h]
      simp [lookupA, h]
    · rw [if_neg h]
      simp [lookupA, h, ih]

theorem lookupA_upsertSet_ne {α β : Type} [DecidableEq α]
    (l : List (α × β)) (k a : α) (v : β) (h : k ≠ a) :
    lookupA (upsertSet l k v) a = lookupA l a := by
  induction l with
  | nil => simp [upsertSet, lookupA, h]
  | cons x t ih =>
    obtain ⟨k0, v0⟩ := x
    unfold upsertSet
    by_cases hk : k0 = k
    · rw [if_pos hk]
      subst hk
      simp [lookupA, h]
    · rw [if_neg hk]
      by_cases ha : k0 = a
      · simp [lookupA, ha]
      · simp [lookupA, ha, ih]

theorem credit_lastAc (env : Env) (s : Store) (r : Result) (p : String) :
    (credit env s r p).lastAc = upsertSet s.lastAc p r.epoch_second := rfl

theorem creditsB_false_cases (s : Store) (r : Result) (p : String)
    (hp : truthyProblem r = some p) (hc : creditsB s r = false) :
    ∃ t, lookupA s.lastAc p = some t ∧ r.epoch_second - t < 7 * 86400 := by
  simp only [creditsB, hp, Option.elim_some] at hc
  cases hl : lookupA s.lastAc p with
  | none => rw [hl] at hc; simp only [Option.elim_none] at hc; cases hc
  | some t =>
    rw [hl] at hc
    simp only [Option.elim_some] at hc
    by_cases hlt : r.epoch_second - t < 7 * 86400
    · exact ⟨t, rfl, hlt⟩
    · rw [if_neg hlt] at hc
      cases hc

theorem handle_ac_noop (env : Env) (s : Store) (r : Result)
    (h : ∀ p, truthyProblem r = some p →
      ∃ t, lookupA s.lastAc p = some t ∧ r.epoch_second - t < 7 * 86400) :
    handle_ac env s r = s := by
  cases hp : truthyProblem r with
  | none => exact handle_ac_of_falsy env s r hp
  | some p =>
    obtain ⟨t, ht, hlt⟩ := h p hp
    exact handle_ac_of_skip env s r p t hp ht hlt

theorem lastAc_mono_step (env : Env) (s : Store) (r : Result) (q : String) (t : Int)
    (h : lookupA s.lastAc q = some t) :
    ∃ u, lookupA (handle_ac env s r).lastAc q = some u ∧ t ≤ u := by
  cases hp : truthyProblem r with
  | none => rw [handle_ac_of_falsy env s r hp]; exact ⟨t, h, le_refl t⟩
  | some p =>
    simp only [handle_ac, hp, Option.elim_some]
    cases hl : lookupA s.lastAc p with
    | none =>
      simp only [Option.elim_none, credit_lastAc]
      by_cases hpq : p = q
      · subst hpq
        rw [h] at hl
        cases hl
      · rw [lookupA_upsertSet_ne s.lastAc p q r.epoch_second hpq]
        exact ⟨t, h, le_refl t⟩
    | some u =>
      simp only [Option.elim_some]
      by_cases hlt : r.epoch_second - u < 7 * 86400
      · rw [if_pos hlt]
        exact ⟨t, h, le_refl t⟩
      · rw [if_neg hlt, credit_lastAc]
        by_cases hpq : p = q
        · subst hpq
          rw [h] at hl
          injection hl with he
          subst he
          rw [lookupA_upsertSet_self]
          exact ⟨r.epoch_second, rfl, by omega⟩
        · rw [lookupA_upsertSet_ne s.lastAc p q r.epoch_second hpq]
          exact ⟨t, h, le_refl t⟩

theorem lastAc_mono_fold (env : Env) (l : List Result) (s : Store) (q : String) (t : Int)
    (h : lookupA s.lastAc q = some t) :
    ∃ u, lookupA ((l.foldl (handle_ac env) s).lastAc) q = some u ∧ t ≤ u := by
  induction l generalizing s t with
  | nil => exact ⟨t, h, le_refl t⟩
  | cons a rest ih =>
    simp only [List.foldl_cons]
    obtain ⟨u1, hu1, hle1⟩ := lastAc_mono_step env s a q t h
    obtain ⟨u, hu, hle⟩ := ih (handle_ac env s a) u1 hu1
    exact ⟨u, hu, le_trans hle1 hle⟩

theorem processed_entry_recent (env : Env) (l : List Result) (s : Store) :
    ∀ r ∈ l, ∀ p, truthyProblem r = some p →
      ∃ t, lookupA ((l.foldl (handle_ac env) s).lastAc) p = some t ∧
        r.epoch_second - t < 7 * 86400 := by
  induction l generalizing s with
  | nil => intro r hr; cases hr
  | cons a rest ih =>
    intro r hr p hp
    simp only [List.foldl_cons]
    rcases List.mem_cons.mp hr with h | h
    · subst h
      by_cases hc : creditsB s r = true
      · rw [handle_ac_of_credit env s r p hp hc]
        have hself : lookupA (credit env s r p).lastAc p = some r.epoch_second := by
          rw [credit_lastAc]
          exact lookupA_upsertSet_self s.lastAc p r.epoch_second
        obtain ⟨u, hu, hle⟩ := lastAc_mono_fold env rest (credit env s r p) p _ hself
        exact ⟨u, hu, by omega⟩
      · have hc2 : creditsB s r = false := by
          cases h2 : creditsB s r
          · rfl
          · exact absurd h2 hc
        obtain ⟨t, ht, hlt⟩ := creditsB_false_cases s r p hp hc2
        rw [handle_ac_noop env s r (fun q hq => by
          rw [hp] at hq
          injection hq with hq2
          subst hq2
          exact ⟨t, ht, hlt⟩)]
        obtain ⟨u, hu, hle⟩ := lastAc_mono_fold env rest s p t ht
        exact ⟨u, hu, by omega⟩
    · exact ih (handle_ac env s a) r h p hp

/-! ## Poll-cycle lemmas -/

theorem poll_results_of_empty (env : Env) (s : Store) (results : List Result)
    (h : pollFilter s results = []) : poll_results env s results = s := by
  simp only [poll_results]
  rw [if_pos h]

theorem poll_results_of_nonempty (env : Env) (s : Store) (results : List Result)
    (h : ¬ pollFilter s results = []) :
    poll_results env s results =
      { (sortResults (pollFilter s results)).foldl (handle_ac env) s with
        last_checked_epoch :=
          ((sortResults (pollFilter s results)).foldl wmStep
            (s.last_checked_epoch, s.last_submission_id)).1,
        last_submission_id :=
          ((sortResults (pollFilter s results)).foldl wmStep
            (s.last_checked_epoch, s.last_submission_id)).2 } := by
  simp only [poll_results]
  rw [if_neg h]

theorem set_wm_lastAc (st : Store) (a : Int) (b : Option Int) :
    ({ st with last_checked_epoch := a, last_submission_id := b } : Store).lastAc =
      st.lastAc := rfl

theorem set_wm_self (st : Store) :
    { st with last_checked_epoch := st.last_checked_epoch, last_submission_id := st.last_submission_id } = st := rfl

theorem wmStep_fixed (a : Int × Option Int) (r : Result)
    (hle : r.epoch_second ≤ a.1)
    (hid : ∀ rid, r.id = some rid → r.epoch_second = a.1 →
      ∃ w, a.2 = some w ∧ rid ≤ w) :
    wmStep a r = a := by
  unfold wmStep
  by_cases h1 : a.1 < r.epoch_second
  · exact absurd h1 (not_lt.mpr hle)
  · simp only [if_neg h1]
    by_cases h2 : r.epoch_second = a.1
    · simp only [if_pos h2]
      cases hr : r.id with
      | none => simp only [Option.elim_none]
      | some rid =>
        simp only [Option.elim_some]
        obtain ⟨w, hw, hle2⟩ := hid rid hr h2
        rw [hw]
        simp only [Option.getD_some]
        rw [max_eq_left hle2, ← hw]
    · simp only [if_neg h2]

/-- C2 (amended): a second poll cycle on the identical unchanged result
list changes no persisted state — no new submission records, no weekly,
streak or last-acceptance change, and the fetch-state watermark keeps its
value — provided every entry kept by the second cycle's filter was also
kept by the first cycle's filter.  (Without that proviso the lookback
window re-admits entries that the first filter dropped at exactly the old
watermark epoch with id not above `last_submission_id`, and such an entry
can be credited by the second run; see the counterexample.) -/
theorem second_poll_cycle_noop_of_kept_subset (env : Env) (s : Store)
    (results : List Result)
    (hsub : ∀ r ∈ pollFilter (poll_results env s results) results,
      r ∈ pollFilter s results) :
    poll_results env (poll_results env s results) results =
      poll_results env s results := by
  by_cases h1 : pollFilter s results = []
  · have e1 : poll_results env s results = s := poll_results_of_empty env s results h1
    rw [e1]
    exact e1
  · have e1 := poll_results_of_nonempty env s results h1
    by_cases h2 : pollFilter (poll_results env s results) results = []
    · exact poll_results_of_empty env (poll_results env s results) results h2
    · have e2 := poll_results_of_nonempty env (poll_results env s results) results h2
      have hmem : ∀ r ∈ sortResults (pollFilter (poll_results env s results) results),
          r ∈ sortResults (pollFilter s results) := by
        intro r hr
        rw [mem_sortResults] at hr ⊢
        exact hsub r hr
      have hlastAc : (poll_results env s results).lastAc =
          ((sortResults (pollFilter s results)).foldl (handle_ac env) s).lastAc := by
        rw [e1]
      have hlce : (poll_results env s results).last_checked_epoch =
          ((sortResults (pollFilter s results)).foldl wmStep
            (s.last_checked_epoch, s.last_submission_id)).1 := by
        rw [e1]
      have hlsi : (poll_results env s results).last_submission_id =
          ((sortResults (pollFilter s results)).foldl wmStep
            (s.last_checked_epoch, s.last_submission_id)).2 := by
        rw [e1]
      have hfold : (sortResults (pollFilter (poll_results env s results) results)).foldl
          (handle_ac env) (poll_results env s results) = poll_results env s results := by
        apply foldl_fixed
        intro r hr
        apply handle_ac_noop
        intro p hp
        obtain ⟨t, ht, hlt⟩ :=
          processed_entry_recent env (sortResults (pollFilter s results)) s r
            (hmem r hr) p hp
        exact ⟨t, by rw [hlastAc]; exact ht, hlt⟩
      have hwm : (sortResults (pollFilter (poll_results env s results) results)).foldl
          wmStep ((poll_results env s results).last_checked_epoch,
            (poll_results env s results).last_submission_id) =
          ((poll_results env s results).last_checked_epoch,
            (poll_results env s results).last_submission_id) := by
        apply foldl_fixed
        intro r hr
        apply wmStep_fixed
        · show r.epoch_second ≤ (poll_results env s results).last_checked_epoch
          rw [hlce]
          exact foldl_wm_fst_ge_mem (sortResults (pollFilter s results))
            (s.last_checked_epoch, s.last_submission_id) r (hmem r hr)
        · intro rid hrid hepoch
          show ∃ w, (poll_results env s results).last_submission_id = some w ∧ rid ≤ w
          rw [hlsi]
          have hepoch2 : r.epoch_second =
              ((sortResults (pollFilter s results)).foldl wmStep
                (s.last_checked_epoch, s.last_submission_id)).1 := by
            rw [← hlce]
            exact hepoch
          exact foldl_wm_id_bound (sortResults (pollFilter s results))
            (s.last_checked_epoch, s.last_submission_id) r (hmem r hr) hepoch2 rid hrid
      rw [e2, hfold, hwm]

/-- C4: watermark monotonicity — for every outcome of a poll cycle (fetch
error, zero filtered entries, or any processed list), the persisted
`last_checked_epoch` after the cycle is at least its value before; it
never decreases. -/
theorem last_checked_epoch_monotone (env : Env) (fetched : Option (List Result))
    (s : Store) :
    s.last_checked_epoch ≤ (poll_user env fetched s).last_checked_epoch := by
  cases fetched with
  | none => exact le_refl _
  | some results =>
    show s.last_checked_epoch ≤ (poll_results env s results).last_checked_epoch
    by_cases h : pollFilter s results = []
    · rw [poll_results_of_empty env s results h]
    · rw [poll_results_of_nonempty env s results h]
      show s.last_checked_epoch ≤
        ((sortResults (pollFilter s results)).foldl wmStep
          (s.last_checked_epoch, s.last_submission_id)).1
      exact foldl_wm_fst_mono _ _

/-- C5 (amended): an entry is kept by the filter iff it is an AC result
at or after the window start and it is not the single rejected shape:
epoch exactly at the watermark with a set `last_submission_id` that its
id (present, nonzero) does not exceed.  In particular entries with epoch
strictly below the watermark but inside the lookback window are also
kept, which the spec newness predicate does not admit. -/
theorem keepB_iff (lastEpoch ws : Int) (lastId : Option Int) (r : Result) :
    keepB lastEpoch lastId ws r = true ↔
      (r.result = "AC" ∧ ws ≤ r.epoch_second ∧
        (lastEpoch < r.epoch_second ∨ r.epoch_second < lastEpoch ∨
          (r.epoch_second = lastEpoch ∧
            (lastId = none ∨
              ∃ v i, lastId = some v ∧ r.id = some i ∧ i ≠ 0 ∧ v < i)))) := by
  unfold keepB
  by_cases hac : r.result = "AC"
  · rw [if_pos hac]
    by_cases hws : r.epoch_second < ws
    · rw [if_pos hws]
      constructor
      · intro h; exact absurd h (by decide)
      · rintro ⟨-, h2, -⟩; exact absurd h2 (by omega)
    · rw [if_neg hws]
      by_cases hgt : lastEpoch < r.epoch_second
      · rw [if_pos hgt]
        constructor
        · intro _; exact ⟨hac, by omega, Or.inl hgt⟩
        · intro _; rfl
      · rw [if_neg hgt]
        by_cases heq : r.epoch_second = lastEpoch
        · rw [if_pos heq]
          cases lastId with
          | none =>
            show true = true ↔ _
            constructor
            · intro _; exact ⟨hac, by omega, Or.inr (Or.inr ⟨heq, Or.inl rfl⟩)⟩
            · intro _; rfl
          | some v =>
            cases hid : r.id with
            | none =>
              show false = true ↔ _
              constructor
              · intro h; exact absurd h (by decide)
              · rintro ⟨-, -, hcase⟩
                rcases hcase with h | h | ⟨-, hsub⟩
                · exact absurd h (by omega)
                · exact absurd h (by omega)
                · rcases hsub with h | ⟨v2, i, hv2, hi, -, -⟩
                  · exact absurd h (by simp)
                  · exact absurd hi (by simp)
            | some i =>
              show (if i = 0 then false else decide (v < i)) = true ↔ _
              by_cases hz : i = 0
              · rw [if_pos hz]
                constructor
                · intro h; exact absurd h (by decide)
                · rintro ⟨-, -, hcase⟩
                  rcases hcase with h | h | ⟨-, hsub⟩
                  · exact absurd h (by omega)
                  · exact absurd h (by omega)
                  · rcases hsub with h | ⟨v2, i2, hv2, hi2, hne, hlt⟩
                    · exact absurd h (by simp)
                    · injection hi2 with hi3
                      subst hi3
                      exact absurd hz hne
              · rw [if_neg hz]
                constructor
                · intro h
                  exact ⟨hac, by omega,
                    Or.inr (Or.inr ⟨heq, Or.inr ⟨v, i, rfl, rfl, hz,
                      of_decide_eq_true h⟩⟩)⟩
                · rintro ⟨-, -, hcase⟩
                  rcases hcase with h | h | ⟨-, hsub⟩
                  · exact absurd h (by omega)
                  · exact absurd h (by omega)
                  · rcases hsub with h | ⟨v2, i2, hv2, hi2, hne, hlt⟩
                    · exact absurd h (by simp)
                    · injection hv2 with hv3
                      injection hi2 with hi3
                      subst hv3
                      subst hi3
                      exact decide_eq_true hlt
        · rw [if_neg heq]
          constructor
          · intro _
            exact ⟨hac, by omega, Or.inr (Or.inl (by omega))⟩
          · intro _; rfl
  · rw [if_neg hac]
    constructor
    · intro h; exact absurd h (by decide)
    · rintro ⟨h, -, -⟩; exact absurd h hac

/-- C5 (counterexample): with watermark (1000, id 50) the filter keeps an
AC entry at epoch 500 (inside the 24h lookback, strictly before the
watermark), although the spec newness predicate rejects it. -/
theorem keepB_disagrees_spec_is_new :
    keepB 1000 (some 50) (max 0 (1000 - 86400)) ⟨"AC", 500, some 1, some "p"⟩ = true ∧
      spec_is_new 1000 (some 50) ⟨"AC", 500, some 1, some "p"⟩ = false := by
  decide

/-- C6: cooldown frame property — if an acceptance of problem `p` is
credited, a second accepted submission of the same problem processed less
than 7 days apart is not credited and mutates no state at all. -/
theorem cooldown_skips_second (env : Env) (s : Store) (r1 r2 : Result) (p : String)
    (hp1 : truthyProblem r1 = some p) (hp2 : truthyProblem r2 = some p)
    (hc1 : creditsB s r1 = true)
    (hgap : |r2.epoch_second - r1.epoch_second| < 7 * 86400) :
    creditsB (handle_ac env s r1) r2 = false ∧
      handle_ac env (handle_ac env s r1) r2 = handle_ac env s r1 := by
  have he1 : handle_ac env s r1 = credit env s r1 p :=
    handle_ac_of_credit env s r1 p hp1 hc1
  have hlook : lookupA (handle_ac env s r1).lastAc p = some r1.epoch_second := by
    rw [he1, credit_lastAc]
    exact lookupA_upsertSet_self _ _ _
  have hlt : r2.epoch_second - r1.epoch_second < 7 * 86400 := by
    have h2 := abs_lt.mp hgap
    omega
  refine ⟨?_, handle_ac_of_skip env _ r2 p r1.epoch_second hp2 hlook hlt⟩
  simp only [creditsB, hp2, Option.elim_some, hlook]
  rw [if_pos hlt]

/-- C7: streak transition — crediting an acceptance whose JST date equals
the stored `last_ac_date` leaves the streak unchanged; the next day
increments it by exactly one; any other date resets it to 1. -/
theorem streak_transition (env : Env) (s : Store) (r : Result) (D : Int)
    (hD : s.last_ac_date = some D) (hc : creditsB s r = true) :
    (handle_ac env s r).current_streak =
      (if to_jst_date r.epoch_second = D then s.current_streak
       else if to_jst_date r.epoch_second = D + 1 then s.current_streak + 1
       else 1) := by
  obtain ⟨p, hp, -⟩ := (creditsB_true_iff s r).mp hc
  rw [handle_ac_of_credit env s r p hp hc, credit_fields]
  show newStreak s (to_jst_date r.epoch_second) = _
  unfold newStreak
  rw [hD]
  by_cases h1 : to_jst_date r.epoch_second = D
  · rw [if_pos (by rw [h1]), if_pos h1]
  · have h1b : ¬(some D = some (to_jst_date r.epoch_second)) := by
      intro h
      injection h with h
      exact h1 h.symm
    rw [if_neg h1b, if_neg h1]
    by_cases h2 : to_jst_date r.epoch_second = D + 1
    · have h2b : some D = some (to_jst_date r.epoch_second - 1) := by
        rw [h2]
        norm_num
      rw [if_pos h2b, if_pos h2]
    · have h2b : ¬(some D = some (to_jst_date r.epoch_second - 1)) := by
        intro h
        injection h with h
        exact h2 (by omega)
      rw [if_neg h2b, if_neg h2]

/-- C10: a credited acceptance whose JST date is neither the stored
`last_ac_date` nor the following day — including a date strictly earlier
than the stored one, reachable through the lookback re-scan — resets the
streak to 1 and overwrites `last_ac_date` with that date, so the stored
date is not monotone across credited events. -/
theorem streak_reset_overwrites_date (env : Env) (s : Store) (r : Result) (D : Int)
    (hD : s.last_ac_date = some D) (hc : creditsB s r = true)
    (h1 : to_jst_date r.epoch_second ≠ D) (h2 : to_jst_date r.epoch_second ≠ D + 1) :
    (handle_ac env s r).current_streak = 1 ∧
      (handle_ac env s r).last_ac_date = some (to_jst_date r.epoch_second) := by
  obtain ⟨p, hp, -⟩ := (creditsB_true_iff s r).mp hc
  rw [handle_ac_of_credit env s r p hp hc, credit_fields]
  refine ⟨?_, rfl⟩
  show newStreak s (to_jst_date r.epoch_second) = 1
  unfold newStreak
  rw [hD]
  have h1b : ¬(some D = some (to_jst_date r.epoch_second)) := by
    intro h
    injection h with h
    exact h1 h.symm
  have h2b : ¬(some D = some (to_jst_date r.epoch_second - 1)) := by
    intro h
    injection h with h
    exact h2 (by omega)
  rw [if_neg h1b, if_neg h2b]

/-- C2 (counterexample): from watermark (1000, id 50), the list
[rA at epoch 1000 with id 40, rB at epoch 1100] credits only rB on the
first cycle (rA is rejected at the watermark epoch), but the second cycle
on the identical list re-admits rA through the lookback branch and
credits it: the second run inserts a new submission record. -/
theorem second_poll_cycle_inserts_record :
    (poll_results envFlat (poll_results envFlat s0C2 [rA, rB]) [rA, rB]).submissions.length = 2 ∧
      (poll_results envFlat s0C2 [rA, rB]).submissions.length = 1 := by
  constructor <;> decide

/-! ## Scoring evaluation lemmas -/

theorem base_score_equal_rating (r : Int) : base_score r r = 250 := by
  unfold base_score
  have h0 : (((r : Real)) - ((r : Real))) / 400 = (0 : Real) := by
    rw [sub_self, zero_div]
  rw [h0, Real.exp_zero]
  have h1 : (500 : Real) / (1 + 1) = 250 := by norm_num
  rw [h1]
  simp only [pyRoundR]
  have hf : (⌊(250 : Real)⌋ : Int) = 250 := by
    rw [show ((250 : Real)) = (((250 : Int) : Real)) by norm_num, Int.floor_intCast]
  rw [hf]
  norm_num

theorem streak_multiplier_one : streak_multiplier 1 = 21 / 20 := by
  unfold streak_multiplier
  norm_num

theorem pyRound_250_mult_one : pyRound (((250 : Int) : Rat) * streak_multiplier 1) = 262 := by
  rw [streak_multiplier_one]
  rw [show (((250 : Int) : Rat)) = (250 : Rat) by norm_num]
  have h1 : (250 : Rat) * (21 / 20) = 525 / 2 := by norm_num
  rw [h1]
  simp only [pyRound]
  have hf : (⌊(525 / 2 : Rat)⌋ : Int) = 262 := by
    rw [Int.floor_eq_iff]
    constructor <;> norm_num
  rw [hf]
  have he : Even (262 : Int) := ⟨131, by norm_num⟩
  norm_num [he]

theorem scoreBaseOf_envC1 : scoreBaseOf envC1 "p1" = 250 := by
  unfold scoreBaseOf
  have h : effectiveDifficulty envC1 "p1" = some 1000 := by decide
  rw [h, Option.elim_some]
  exact base_score_equal_rating 1000

theorem handle_ac_C1 :
    handle_ac envC1 sC1 rC1 =
      ⟨1000, none, 1, some 0, [("p1", 1500)], [(-266400, 262)],
        [⟨"p1", 1500, 250, 21 / 20, 262⟩]⟩ := by
  have hp : truthyProblem rC1 = some "p1" := by decide
  have hc : creditsB sC1 rC1 = true := by decide
  rw [handle_ac_of_credit envC1 sC1 rC1 "p1" hp hc, credit_fields]
  have hns : newStreak sC1 (to_jst_date rC1.epoch_second) = 1 := by decide
  rw [hns, scoreBaseOf_envC1, pyRound_250_mult_one, streak_multiplier_one]
  rfl

theorem poll_C1 :
    poll_results envC1 sC1 [rC1] =
      ⟨1500, some 1, 1, some 0, [("p1", 1500)], [(-266400, 262)],
        [⟨"p1", 1500, 250, 21 / 20, 262⟩]⟩ := by
  have hne : ¬ pollFilter sC1 [rC1] = [] := by decide
  rw [poll_results_of_nonempty envC1 sC1 [rC1] hne]
  have hsort : sortResults (pollFilter sC1 [rC1]) = [rC1] := by decide
  rw [hsort, List.foldl_cons, List.foldl_nil, handle_ac_C1]
  have hwm : List.foldl wmStep (sC1.last_checked_epoch, sC1.last_submission_id) [rC1] =
      ((1500 : Int), some (1 : Int)) := by decide
  rw [hwm]

/-- C1 (counterexample): in the end-to-end scenario (rating 1000,
watermark 1000, no prior streak, one new AC at epoch 1500 on a problem of
difficulty 1000) the weekly aggregate for the bucket owning epoch 1500
increases by 262, not 263: the multiplied score is exactly 262.5 and
Python round, which rounds half to even, yields 262. -/
theorem c1_weekly_delta_is_262_not_263 :
    lookupA (poll_results envC1 sC1 [rC1]).weekly (week_start_jst 1500) = some 262 ∧
      (262 : Int) ≠ 263 := by
  constructor
  · rw [poll_C1]
    decide
  · decide

/-- C1 (amended): the end-to-end scenario yields base score 250, streak
1, multiplier 1.05 (= 21/20), final score 262 (round-half-to-even of
262.5), a weekly-aggregate increase of 262 for the bucket owning epoch
1500, and a watermark advanced to 1500. -/
theorem c1_scenario :
    base_score 1000 1000 = 250 ∧
      (poll_results envC1 sC1 [rC1]).current_streak = 1 ∧
      streak_multiplier 1 = 21 / 20 ∧
      (poll_results envC1 sC1 [rC1]).submissions = [⟨"p1", 1500, 250, 21 / 20, 262⟩] ∧
      lookupA (poll_results envC1 sC1 [rC1]).weekly (week_start_jst 1500) = some 262 ∧
      (poll_results envC1 sC1 [rC1]).last_checked_epoch = 1500 := by
  refine ⟨base_score_equal_rating 1000, ?_, streak_multiplier_one, ?_, ?_, ?_⟩
  · rw [poll_C1]
  · rw [poll_C1]
  · rw [poll_C1]
    decide
  · rw [poll_C1]

/-- C3 (amended): the four writes of a credited event are performed
sequentially (update_streak, insert_submission, add_weekly_score,
upsert_last_ac), each committed separately; a failure after the first `k`
writes durably retains exactly those `k` writes, so states holding a
strict subset of the four writes are reachable mid-entry. -/
theorem credit_partial_writes (env : Env) (s : Store) (r : Result) (p : String)
    (k : Nat) (hk : k ≤ 4) :
    (creditUpTo k env s r p).current_streak =
      (if 1 ≤ k then newStreak s (to_jst_date r.epoch_second)
       else s.current_streak) ∧
      (creditUpTo k env s r p).last_ac_date =
        (if 1 ≤ k then some (to_jst_date r.epoch_second) else s.last_ac_date) ∧
      (creditUpTo k env s r p).submissions =
        (if 2 ≤ k then
          (⟨p, r.epoch_second, scoreBaseOf env p,
            streak_multiplier (newStreak s (to_jst_date r.epoch_second)),
            pyRound ((scoreBaseOf env p : Rat) *
              streak_multiplier (newStreak s (to_jst_date r.epoch_second)))⟩ :
            Submission) :: s.submissions
         else s.submissions) ∧
      (creditUpTo k env s r p).weekly =
        (if 3 ≤ k then
          upsertAdd s.weekly (week_start_jst r.epoch_second)
            (pyRound ((scoreBaseOf env p : Rat) *
              streak_multiplier (newStreak s (to_jst_date r.epoch_second))))
         else s.weekly) ∧
      (creditUpTo k env s r p).lastAc =
        (if 4 ≤ k then upsertSet s.lastAc p r.epoch_second else s.lastAc) ∧
      creditUpTo 4 env s r p = credit env s r p := by
  interval_cases k <;> exact ⟨rfl, rfl, rfl, rfl, rfl, rfl⟩

/-- C3 (counterexample): failing after the second write leaves a
reachable state with the submission record appended but the weekly
aggregate and LastAcceptance unchanged — a strict subset of the credited
event's four writes (the full sequence would have changed LastAcceptance
as well). -/
theorem credit_partial_state_exists :
    (creditUpTo 2 envFlat s0Wit rWit "p").submissions.length = 1 ∧
      s0Wit.submissions.length = 0 ∧
      (creditUpTo 2 envFlat s0Wit rWit "p").weekly = s0Wit.weekly ∧
      (creditUpTo 2 envFlat s0Wit rWit "p").lastAc = s0Wit.lastAc ∧
      (creditUpTo 4 envFlat s0Wit rWit "p").lastAc ≠ s0Wit.lastAc := by
  exact ⟨by decide, by decide, rfl, rfl, by decide⟩

/-! ## Difficulty normalizer lemmas -/

theorem pyRoundR_ge_floor (x : Real) : ⌊x⌋ ≤ pyRoundR x := by
  simp only [pyRoundR]
  split_ifs <;> omega

theorem pyRoundR_le_floor_add_one (x : Real) : pyRoundR x ≤ ⌊x⌋ + 1 := by
  simp only [pyRoundR]
  split_ifs <;> omega

theorem pyRoundR_mono (x y : Real) (h : x ≤ y) : pyRoundR x ≤ pyRoundR y := by
  have hfl : ⌊x⌋ ≤ ⌊y⌋ := Int.floor_le_floor h
  rcases lt_or_eq_of_le hfl with hlt | heq
  · have h1 := pyRoundR_le_floor_add_one x
    have h2 := pyRoundR_ge_floor y
    omega
  · simp only [pyRoundR]
    rw [← heq]
    have hxy : x - (⌊x⌋ : Real) ≤ y - (⌊x⌋ : Real) := by linarith
    by_cases h1 : x - (⌊x⌋ : Real) < 1 / 2
    · rw [if_pos h1]
      split_ifs <;> omega
    · rw [if_neg h1]
      have h2 : ¬ (y - (⌊x⌋ : Real) < 1 / 2) := by
        intro hy
        exact h1 (lt_of_le_of_lt hxy hy)
      rw [if_neg h2]
      by_cases h3 : 1 / 2 < x - (⌊x⌋ : Real)
      · rw [if_pos h3, if_pos (lt_of_lt_of_le h3 hxy)]
      · rw [if_neg h3]
        by_cases h4 : 1 / 2 < y - (⌊x⌋ : Real)
        · rw [if_pos h4]
          split_ifs <;> omega
        · rw [if_neg h4]

theorem exp_gt_800_of_ge_seven (y : Real) (hy : 7 ≤ y) : 800 < Real.exp y := by
  have h1 : Real.exp 7 ≤ Real.exp y := Real.exp_le_exp.mpr hy
  have h2 : Real.exp ((7 : Nat) * (1 : Real)) = Real.exp 1 ^ (7 : Nat) :=
    Real.exp_nat_mul 1 7
  have h2b : Real.exp (7 : Real) = Real.exp 1 ^ (7 : Nat) := by
    rw [← h2]
    norm_num
  have h3 : (2.7182818283 : Real) ^ (7 : Nat) < Real.exp 1 ^ (7 : Nat) :=
    pow_lt_pow_left Real.exp_one_gt_d9 (by norm_num) (by norm_num)
  have h4 : (800 : Real) < 2.7182818283 ^ (7 : Nat) := by norm_num
  calc (800 : Real) < 2.7182818283 ^ (7 : Nat) := h4
    _ < Real.exp 1 ^ (7 : Nat) := h3
    _ = Real.exp 7 := h2b.symm
    _ ≤ Real.exp y := h1

theorem display_difficulty_eq_zero (d : Real) (hd : d ≤ -2400) :
    display_difficulty d = 0 := by
  unfold display_difficulty
  rw [if_pos (by linarith : d < 400)]
  have hexp : 800 < Real.exp (1 - d / 400) :=
    exp_gt_800_of_ge_seven _ (by linarith)
  have hepos : (0 : Real) < Real.exp (1 - d / 400) := Real.exp_pos _
  have hx0 : 0 < 400 / Real.exp (1 - d / 400) := div_pos (by norm_num) hepos
  have hxh : 400 / Real.exp (1 - d / 400) < 1 / 2 := by
    rw [div_lt_iff hepos]
    linarith
  have hf : (⌊400 / Real.exp (1 - d / 400)⌋ : Int) = 0 := by
    rw [Int.floor_eq_iff]
    constructor
    · push_cast
      linarith
    · push_cast
      linarith
  simp only [pyRoundR]
  rw [hf]
  rw [if_pos (by push_cast; linarith)]

theorem display_difficulty_399_9 : display_difficulty (399.9 : Real) = 400 := by
  unfold display_difficulty
  rw [if_pos (by norm_num : (399.9 : Real) < 400)]
  have harg : (1 : Real) - 399.9 / 400 = 0.00025 := by norm_num
  rw [harg]
  have hpos : (0 : Real) < Real.exp 0.00025 := Real.exp_pos _
  have elow : (1.00025 : Real) ≤ Real.exp 0.00025 := by
    have h := Real.add_one_le_exp (0.00025 : Real)
    linarith
  have h2 : (0.99975 : Real) < (Real.exp 0.00025)⁻¹ := by
    rw [← Real.exp_neg]
    have h := Real.add_one_lt_exp (show (-0.00025 : Real) ≠ 0 by norm_num)
    linarith
  have h3 : Real.exp 0.00025 < (0.99975 : Real)⁻¹ := by
    have h4 := inv_lt_inv_of_lt (show (0 : Real) < 0.99975 by norm_num) h2
    rwa [inv_inv] at h4
  have hx1 : (399.9 : Real) < 400 / Real.exp 0.00025 := by
    rw [lt_div_iff hpos]
    have h5 := mul_lt_mul_of_pos_left h3 (show (0 : Real) < 399.9 by norm_num)
    have h6 : (399.9 : Real) * (0.99975 : Real)⁻¹ = 400 := by norm_num
    linarith
  have hx2 : 400 / Real.exp 0.00025 < 400 :=
    div_lt_self (by norm_num) (by linarith)
  have hf : (⌊400 / Real.exp 0.00025⌋ : Int) = 399 := by
    rw [Int.floor_eq_iff]
    constructor
    · push_cast
      linarith
    · push_cast
      linarith
  simp only [pyRoundR]
  rw [hf]
  rw [if_neg (by push_cast; linarith), if_pos (by push_cast; linarith)]
  decide

/-- C8 (counterexample): the normalizer is not strictly increasing below
400 — raw estimates -10000 and -9999 both display as 0 — and its output
is not always below 400: raw 399.9 displays as exactly 400 (the
pre-rounding value exceeds 399.5 and rounds up). -/
theorem display_difficulty_claim_fails :
    ((-10000 : Real) < -9999 ∧ (-10000 : Real) < 400 ∧ (-9999 : Real) < 400 ∧
      display_difficulty (-10000) = display_difficulty (-9999)) ∧
      ((399.9 : Real) < 400 ∧ display_difficulty (399.9 : Real) = 400) := by
  refine ⟨⟨by norm_num, by norm_num, by norm_num, ?_⟩, by norm_num,
    display_difficulty_399_9⟩
  rw [display_difficulty_eq_zero (-10000) (by norm_num),
    display_difficulty_eq_zero (-9999) (by norm_num)]

/-- C8 (amended): for raw d at or above 400 the normalizer returns round(d); below
400 it is monotone non-decreasing (the underlying exponential compression
is strictly increasing, but rounding collapses nearby values) and its
output never exceeds 400 (the pre-rounding value stays strictly below
400, so rounding can reach at most 400). -/
theorem display_difficulty_amended :
    (∀ d : Real, 400 ≤ d → display_difficulty d = pyRoundR d) ∧
      (∀ d1 d2 : Real, d1 < d2 → d2 < 400 →
        display_difficulty d1 ≤ display_difficulty d2) ∧
      (∀ d : Real, d < 400 → display_difficulty d ≤ 400) := by
  refine ⟨?_, ?_, ?_⟩
  · intro d hd
    unfold display_difficulty
    rw [if_neg (not_lt.mpr hd)]
  · intro d1 d2 h12 h2
    unfold display_difficulty
    rw [if_pos (by linarith : d1 < 400), if_pos h2]
    apply pyRoundR_mono
    have he1 : (0 : Real) < Real.exp (1 - d2 / 400) := Real.exp_pos _
    have he2 : Real.exp (1 - d2 / 400) ≤ Real.exp (1 - d1 / 400) :=
      Real.exp_le_exp.mpr (by linarith)
    apply div_le_div_of_nonneg_left (by norm_num) he1 he2
  · intro d hd
    unfold display_difficulty
    rw [if_pos hd]
    have hepos : (0 : Real) < Real.exp (1 - d / 400) := Real.exp_pos _
    have hgt1 : (1 : Real) < Real.exp (1 - d / 400) := by
      have h0 : (0 : Real) < 1 - d / 400 := by linarith
      have h1 := Real.add_one_le_exp (1 - d / 400)
      linarith
    have hlt : 400 / Real.exp (1 - d / 400) < 400 :=
      div_lt_self (by norm_num) hgt1
    have hfl : ⌊400 / Real.exp (1 - d / 400)⌋ < (400 : Int) := by
      rw [Int.floor_lt]
      push_cast
      linarith
    have h2 := pyRoundR_le_floor_add_one (400 / Real.exp (1 - d / 400))
    omega

/-- C8 (witness): concrete instances of the amended normalizer
properties: at 400 the high branch returns round(400); the monotone bound
holds between -10000 and -9999; the ≤ 400 bound holds at 0. -/
theorem display_difficulty_amended_witness :
    ((400 : Real) ≤ 400 ∧ display_difficulty 400 = pyRoundR 400) ∧
      ((-10000 : Real) < -9999 ∧ (-9999 : Real) < 400 ∧
        display_difficulty (-10000) ≤ display_difficulty (-9999)) ∧
      ((0 : Real) < 400 ∧ display_difficulty 0 ≤ 400) :=
  ⟨⟨by norm_num, display_difficulty_amended.1 400 (by norm_num)⟩,
    ⟨by norm_num, by norm_num,
      display_difficulty_amended.2.1 (-10000) (-9999) (by norm_num) (by norm_num)⟩,
    ⟨by norm_num, display_difficulty_amended.2.2 0 (by norm_num)⟩⟩

/-- C2 (witness): a concrete instance of the amended idempotence theorem:
after crediting one fresh AC entry, a second cycle on the same list keeps
nothing new and leaves the store identical. -/
theorem second_poll_cycle_noop_witness :
    (∀ r ∈ pollFilter (poll_results envFlat s0Wit [rWit]) [rWit],
      r ∈ pollFilter s0Wit [rWit]) ∧
      poll_results envFlat (poll_results envFlat s0Wit [rWit]) [rWit] =
        poll_results envFlat s0Wit [rWit] :=
  ⟨by decide, second_poll_cycle_noop_of_kept_subset envFlat s0Wit [rWit] (by decide)⟩

/-- C6 (witness): problem p credited at epoch 1000; the repeat acceptance
at epoch 2000 (1000 seconds later, inside the 7-day cooldown) is not
credited and leaves the store unchanged. -/
theorem cooldown_skips_second_witness :
    (truthyProblem rC6a = some "p" ∧ truthyProblem rC6b = some "p" ∧
      creditsB s0Wit rC6a = true ∧
      |rC6b.epoch_second - rC6a.epoch_second| < 7 * 86400) ∧
      (creditsB (handle_ac envFlat s0Wit rC6a) rC6b = false ∧
        handle_ac envFlat (handle_ac envFlat s0Wit rC6a) rC6b =
          handle_ac envFlat s0Wit rC6a) :=
  ⟨⟨by decide, by decide, by decide, by decide⟩,
    cooldown_skips_second envFlat s0Wit rC6a rC6b "p" (by decide) (by decide)
      (by decide) (by decide)⟩

/-- C7 (witness): with stored streak 3 and last date day 20454, crediting
an acceptance on the same JST day leaves the streak at 3. -/
theorem streak_transition_witness :
    (sSameDay.last_ac_date = some 20454 ∧ creditsB sSameDay rSameDay = true) ∧
      (handle_ac envFlat sSameDay rSameDay).current_streak =
        (if to_jst_date rSameDay.epoch_second = 20454 then sSameDay.current_streak
         else if to_jst_date rSameDay.epoch_second = 20454 + 1 then
           sSameDay.current_streak + 1
         else 1) :=
  ⟨⟨by decide, by decide⟩,
    streak_transition envFlat sSameDay rSameDay 20454 (by decide) (by decide)⟩

/-- C10 (witness): with stored last date day 100, crediting an
out-of-order acceptance dated day 50 resets the streak to 1 and
overwrites the stored date with the strictly earlier day 50. -/
theorem streak_reset_overwrites_date_witness :
    (sReset.last_ac_date = some 100 ∧ creditsB sReset rReset = true ∧
      to_jst_date rReset.epoch_second ≠ 100 ∧
      to_jst_date rReset.epoch_second ≠ 100 + 1 ∧
      to_jst_date rReset.epoch_second < 100) ∧
      ((handle_ac envFlat sReset rReset).current_streak = 1 ∧
        (handle_ac envFlat sReset rReset).last_ac_date =
          some (to_jst_date rReset.epoch_second)) :=
  ⟨⟨by decide, by decide, by decide, by decide, by decide⟩,
    streak_reset_overwrites_date envFlat sReset rReset 100 (by decide) (by decide)
      (by decide) (by decide)⟩

/-- C3 (witness): the partial-write characterization instantiated at
k = 2 on a concrete store and entry. -/
theorem credit_partial_writes_witness :
    (2 : Nat) ≤ 4 ∧
      ((creditUpTo 2 envFlat s0Wit rWit "p").current_streak =
        (if 1 ≤ 2 then newStreak s0Wit (to_jst_date rWit.epoch_second)
         else s0Wit.current_streak) ∧
        (creditUpTo 2 envFlat s0Wit rWit "p").last_ac_date =
          (if 1 ≤ 2 then some (to_jst_date rWit.epoch_second)
           else s0Wit.last_ac_date) ∧
        (creditUpTo 2 envFlat s0Wit rWit "p").submissions =
          (if 2 ≤ 2 then
            (⟨"p", rWit.epoch_second, scoreBaseOf envFlat "p",
              streak_multiplier (newStreak s0Wit (to_jst_date rWit.epoch_second)),
              pyRound ((scoreBaseOf envFlat "p" : Rat) *
                streak_multiplier
                  (newStreak s0Wit (to_jst_date rWit.epoch_second)))⟩ :
              Submission) :: s0Wit.submissions
           else s0Wit.submissions) ∧
        (creditUpTo 2 envFlat s0Wit rWit "p").weekly =
          (if 3 ≤ 2 then
            upsertAdd s0Wit.weekly (week_start_jst rWit.epoch_second)
              (pyRound ((scoreBaseOf envFlat "p" : Rat) *
                streak_multiplier
                  (newStreak s0Wit (to_jst_date rWit.epoch_second))))
           else s0Wit.weekly) ∧
        (creditUpTo 2 envFlat s0Wit rWit "p").lastAc =
          (if 4 ≤ 2 then upsertSet s0Wit.lastAc "p" rWit.epoch_second
           else s0Wit.lastAc) ∧
        creditUpTo 4 envFlat s0Wit rWit "p" = credit envFlat s0Wit rWit "p") :=
  ⟨by decide, credit_partial_writes envFlat s0Wit rWit "p" 2 (by decide)⟩

/-- C9: the difficulty normalizer is not total — at raw difficulty
-300000 the `raw < 400` branch computes `math.exp(1 - raw/400)` =
`math.exp(751)`, whose argument exceeds the double overflow threshold, so
the call raises OverflowError (modelled as `none`) instead of returning
an integer, contradicting the claimed absence of failure modes for
arbitrarily large negative inputs. -/
theorem display_difficulty_overflow :
    display_difficulty_checked (-300000) = none := by
  unfold display_difficulty_checked
  rw [if_pos (by norm_num : (-300000 : Real) < 400)]
  unfold math_exp
  rw [show (1 : Real) - (-300000) / 400 = 751 by norm_num]
  rw [if_neg (by norm_num)]
  rfl
